import Mathlib

/-!
# Verification of the market-watch harmonization pipeline

Shallow embedding of the algorithmic core of `market_watch_auto.py`,
`market_watch_macro.py` and `market_watch_trends.py`:

* batching of Google-Trends keyword requests with a shared anchor key
  (`pytrends_fetch_with_anchor`),
* retry loops around the external fetches (`try_build_and_get`, `fetch_fred`),
* anchor-based cross-batch rescaling,
* monthly resampling, forward/backward gap filling, the percent-vs-bps
  unit heuristic (`hy_to_bps`) and the year-over-year growth computation
  (`compute_m2_yoy`).

Timestamps are modelled as natural numbers, data values as rationals;
a pandas `NaN` cell is `Option.none`, and where IEEE infinities matter
(`pct_change` against a zero base value) a dedicated `MFloat` type with
`nan` / `inf` / `ninf` constructors is used.
-/

namespace MarketWatch

/-! ## Batch planning (`market_watch_auto.pytrends_fetch_with_anchor`, lines 87-103)

The Python code hard-codes the pytrends capacity K = 5.  With at most 5
keywords a single batch is issued.  Otherwise exactly two batches are built:
`batch1 = keywords[:5]` and `batch2 = [anchor] + remaining` where
`remaining = [k for k in keywords if k not in batch1]` and the anchor
defaults to `keywords[0]` when the caller passed a falsy anchor
(modelled as `Option.none`). -/

def planBatches (keywords : List String) (anchorKeyword : Option String) :
    List (List String) :=
  if keywords.length ≤ 5 then [keywords]
  else
    let anchor := match anchorKeyword with
      | some a => a
      | none => keywords.headD ""
    let batch1 := keywords.take 5
    let remaining := keywords.filter (fun k => ¬ k ∈ batch1)
    [batch1, anchor :: remaining]

/-! ## Time series

A raw (sub-monthly) observation is stamped with a `(month, day)` pair; a
monthly row is stamped with the month alone.  Values are rationals; a pandas
`NaN` cell is `Option.none`. -/

/-- Timestamp of a raw observation: (month index, day within the month). -/
abbrev DayStamp := Nat × Nat

/-- A raw fetched column, as returned by `DataReader` / pytrends: rows of
(timestamp, value), assumed sorted by timestamp with no duplicates. -/
abbrev DCol := List (DayStamp × ℚ)

/-- A monthly column after resampling: one row per month of the observed
span; a month with no observation carries `none` (pandas `NaN`). -/
abbrev MCol := List (Nat × Option ℚ)

/-! ## Monthly resampling (`df.resample("M").last()` / `.mean()`)

pandas `resample("M")` produces one bucket per month from the first to the
last observed month (months with no rows become `NaN`); `.last()` takes the
observation with the greatest timestamp in the bucket, `.mean()` the
arithmetic mean of the bucket. -/

/-- The contiguous list of months spanned by the column's observations. -/
def monthSpan (c : DCol) : List Nat :=
  match (c.map (fun r => r.1.1)).min?, (c.map (fun r => r.1.1)).max? with
  | some lo, some hi => List.range' lo (hi + 1 - lo)
  | _, _ => []

/-- The (day, value) observations of column `c` falling in month `m`. -/
def rowsInMonth (c : DCol) (m : Nat) : List (Nat × ℚ) :=
  c.filterMap (fun r => if r.1.1 = m then some (r.1.2, r.2) else none)

/-- The row with the greatest day (the later row winning ties, as pandas
`last` keeps the final row of the bucket). -/
def bestRow : List (Nat × ℚ) → Option (Nat × ℚ)
  | [] => none
  | r :: rest =>
    match bestRow rest with
    | none => some r
    | some b => if r.1 ≤ b.1 then some b else some r

/-- Last observation of month `m`, if the month has any row. -/
def lastInMonth (c : DCol) (m : Nat) : Option ℚ :=
  (bestRow (rowsInMonth c m)).map Prod.snd

/-- Mean of the observations of month `m`, if the month has any row. -/
def meanInMonth (c : DCol) (m : Nat) : Option ℚ :=
  match rowsInMonth c m with
  | [] => none
  | rows => some ((rows.map Prod.snd).sum / (rows.map Prod.snd).length)

/-- `df.resample("M").last()` on a single column. -/
def resample_last (c : DCol) : MCol :=
  (monthSpan c).map (fun m => (m, lastInMonth c m))

/-- `df.resample("M").mean()` on a single column. -/
def resample_mean (c : DCol) : MCol :=
  (monthSpan c).map (fun m => (m, meanInMonth c m))

/-- `market_watch_auto.to_monthly_mean` (lines 154-157): empty in, empty
out, otherwise `resample("M").mean()`. -/
def to_monthly_mean (df : DCol) : MCol :=
  if df.isEmpty then [] else resample_mean df

/-! ## Unit heuristic (`market_watch_macro.hy_to_bps`, lines 58-71) -/

/-- pandas `Series.median()` with the default `skipna`: sort the
non-missing values; odd count takes the middle element, even count the mean
of the two middle elements, empty input `NaN`. -/
def medianQ (l : List ℚ) : Option ℚ :=
  let s := List.insertionSort (· ≤ ·) l
  if s.length = 0 then none
  else if s.length % 2 = 1 then some (s.getD (s.length / 2) 0)
  else some ((s.getD (s.length / 2 - 1) 0 + s.getD (s.length / 2) 0) / 2)

/-- The scale branch of `hy_to_bps`: if the median of the non-missing
values is defined (`pd.notna(med)`) and `abs(med) < 20`, every value is
multiplied by 100, otherwise the series is returned unchanged. -/
def unit_normalize (vals : List (Option ℚ)) : List (Option ℚ) :=
  match medianQ (vals.filterMap id) with
  | some med =>
      if |med| < 20 then vals.map (Option.map (fun v => v * 100)) else vals
  | none => vals

/-- `market_watch_macro.hy_to_bps`: empty in, empty out; otherwise resample
to month-end with `.last()` (already sorted) and apply the percent-vs-bps
median heuristic to the monthly values. -/
def hy_to_bps (hy : DCol) : MCol :=
  if hy.isEmpty then []
  else
    let hy_mon := resample_last hy
    (hy_mon.map Prod.fst).zip (unit_normalize (hy_mon.map Prod.snd))

/-- `market_watch_macro.vix_monthly` (lines 73-79): empty in, empty out;
otherwise month-end resample with `.last()` (renaming only). -/
def vix_monthly (vix : DCol) : MCol :=
  if vix.isEmpty then [] else resample_last vix

/-! ## Year-over-year growth (`compute_m2_yoy`)

`m2_mon[sid].pct_change(periods=12) * 100` is float arithmetic: dividing a
nonzero value by a zero base yields an IEEE infinity, not `NaN`, and
`pct_change`'s default `fill_method="pad"` forward-fills missing values
before dividing.  `MFloat` models the float cells including the
infinities. -/

inductive MFloat
  | nan
  | pinf
  | ninf
  | fin (q : ℚ)
deriving DecidableEq

/-- IEEE-style division on `MFloat` cells (numpy semantics: finite/0 is a
signed infinity, 0/0 and anything involving `NaN` is `NaN`). -/
def divM : MFloat → MFloat → MFloat
  | .nan, _ => .nan
  | _, .nan => .nan
  | .fin a, .fin b =>
      if b = 0 then (if a = 0 then .nan else if 0 < a then .pinf else .ninf)
      else .fin (a / b)
  | .pinf, .fin b => if b < 0 then .ninf else .pinf
  | .ninf, .fin b => if b < 0 then .pinf else .ninf
  | .fin _, .pinf => .fin 0
  | .fin _, .ninf => .fin 0
  | _, _ => .nan

/-- Subtracting the constant 1 (the `- 1` of `pct_change`). -/
def subOneM : MFloat → MFloat
  | .nan => .nan
  | .pinf => .pinf
  | .ninf => .ninf
  | .fin q => .fin (q - 1)

/-- Multiplying by the constant 100 (the `* 100` of the YoY column). -/
def mulHundredM : MFloat → MFloat
  | .nan => .nan
  | .pinf => .pinf
  | .ninf => .ninf
  | .fin q => .fin (q * 100)

/-- Forward fill on float cells with a carried last non-`NaN` value
(`fill_method="pad"`): a `NaN` cell is replaced by the carry, any other
cell is kept and becomes the carry. -/
def ffillM : Option MFloat → List MFloat → List MFloat
  | _, [] => []
  | carry, .nan :: xs => carry.getD .nan :: ffillM carry xs
  | _, .pinf :: xs => .pinf :: ffillM (some .pinf) xs
  | _, .ninf :: xs => .ninf :: ffillM (some .ninf) xs
  | _, .fin q :: xs => .fin q :: ffillM (some (.fin q)) xs

/-- pandas `Series.pct_change(periods=12)` with the default
`fill_method="pad"`: forward-fill, then `filled[i] / filled[i-12] - 1`,
with `NaN` for the first 12 positions (the shifted base is missing
there). -/
def pct_change12 (v : List MFloat) : List MFloat :=
  let f := ffillM none v
  (List.range v.length).map (fun i =>
    if i < 12 then .nan
    else subOneM (divM (f.getD i .nan) (f.getD (i - 12) .nan)))

/-- A monthly `NaN`-able cell as a float cell. -/
def cellToM : Option ℚ → MFloat
  | none => .nan
  | some q => .fin q

/-- The YoY growth values: `pct_change(periods=12) * 100`. -/
def m2_yoy_vals (vals : List MFloat) : List MFloat :=
  (pct_change12 vals).map mulHundredM

/-- `compute_m2_yoy` (macro lines 48-56 and auto lines 45-51): empty in,
empty out; otherwise resample to month-end with `.last()` (already sorted)
and attach the `pct_change(12) * 100` column. -/
def compute_m2_yoy (m2 : DCol) : List (Nat × MFloat) :=
  if m2.isEmpty then []
  else
    let mon := resample_last m2
    (mon.map Prod.fst).zip (m2_yoy_vals (mon.map (fun r => cellToM r.2)))

/-! ## Retry loops

`market_watch_macro.fetch_fred` (lines 27-46) and
`market_watch_auto.try_build_and_get` (lines 68-84) both loop over a fixed
number of attempts; each attempt's outcome is modelled by one list element
(the list has one entry per attempt the loop would make). -/

/-- Outcome of one `DataReader(series_id, "fred", ...)` attempt. -/
inductive FredResp
  | raises
  | emptyDf
  | ok (rows : DCol)
deriving DecidableEq

/-- `market_watch_macro.fetch_fred`: an attempt that raises is retried
after a pause; an empty frame is returned immediately as an empty
`DataFrame` (`none` here); data is returned; when every attempt raises the
final `raise RuntimeError(...)` is reached, modelled as `Except.error`. -/
def macro_fetch_fred : List FredResp → Except String (Option DCol)
  | [] => .error "RuntimeError"
  | .raises :: rest => macro_fetch_fred rest
  | .emptyDf :: _ => .ok none
  | .ok rows :: _ => .ok (some rows)

/-- `market_watch_auto.fetch_fred` (lines 33-43): a single attempt whose
exception or empty frame both become an empty `DataFrame`. -/
def fetch_fred_auto : FredResp → DCol
  | .raises => []
  | .emptyDf => []
  | .ok rows => rows

/-- A trends column indexed by raw timestamps. -/
abbrev Frame := List (String × DCol)

/-- Outcome of one `pytrends.build_payload` + `interest_over_time`
attempt. -/
inductive TrendResp
  | raises
  | noneDf
  | ok (df : Frame)
deriving DecidableEq

/-- `market_watch_auto.try_build_and_get`: a raised exception or a `None`
frame are retried after a pause; a returned frame is stripped of its
`isPartial` column and returned as-is (even when empty); when all attempts
are exhausted an empty `DataFrame` is returned — never an exception. -/
def try_build_and_get : List TrendResp → Frame
  | [] => []
  | .raises :: rest => try_build_and_get rest
  | .noneDf :: rest => try_build_and_get rest
  | .ok df :: _ => df.filter (fun c => ¬ c.1 = "isPartial")

/-! ## Anchor rescaling (`pytrends_fetch_with_anchor`, lines 111-152) -/

/-- The data of column `name` in a frame (first matching column; empty when
the column is absent). -/
def colOf (df : Frame) (name : String) : DCol :=
  ((df.find? (fun c => c.1 = name)).map Prod.snd).getD []

/-- `df1.index.intersection(df2.index)` restricted to two columns: the
timestamps of `c1` that also appear in `c2`, in `c1` order. -/
def commonIndex (c1 c2 : DCol) : List DayStamp :=
  (c1.map Prod.fst).filter (fun t => t ∈ c2.map Prod.fst)

/-- Value of a column at a timestamp (0 when absent; only used on
timestamps belonging to the column). -/
def colAt (c : DCol) (t : DayStamp) : ℚ :=
  ((c.find? (fun r => r.1 = t)).map Prod.snd).getD 0

/-- `df.loc[idx, name].mean()`: mean of the column's values over the given
timestamps. -/
def meanOver (c : DCol) (idx : List DayStamp) : ℚ :=
  (idx.map (colAt c)).sum / idx.length

/-- `series.max()` with the code's `if not ... .empty else 1.0` guard. -/
def maxOrOne (c : DCol) : ℚ :=
  ((c.map Prod.snd).max?).getD 1

/-- Scale factor of lines 125-135: over a non-empty timestamp intersection,
the ratio of the two anchor means; with no overlap, the ratio of the two
anchor maxima; a zero divisor degrades to scale 1. -/
def computeScale (df1 df2 : Frame) (anchor : String) : ℚ :=
  let c1 := colOf df1 anchor
  let c2 := colOf df2 anchor
  let common := commonIndex c1 c2
  if common.isEmpty then
    let a1 := maxOrOne c1
    let a2 := maxOrOne c2
    if a2 ≠ 0 then a1 / a2 else 1
  else
    let a1 := meanOver c1 common
    let a2 := meanOver c2 common
    if a2 ≠ 0 then a1 / a2 else 1

/-- `df.drop(columns=[name], errors="ignore")`. -/
def dropColumn (df : Frame) (name : String) : Frame :=
  df.filter (fun c => ¬ c.1 = name)

/-- Lines 138-142: multiply every non-anchor column by the scale. -/
def scaleFrame (df : Frame) (anchor : String) (s : ℚ) : Frame :=
  df.map (fun c =>
    if c.1 = anchor then c
    else (c.1, c.2.map (fun r => (r.1, r.2 * s))))

/-- Lines 111-152: the combination of the two fetched batch frames.  Empty
frames short-circuit; when the anchor is missing from either frame the
frames are concatenated unscaled (and returned without reordering); in the
aligned branch the scale is computed from the two anchor columns, batch 2's
non-anchor columns are scaled, batch 2's anchor column is dropped, and the
columns are reordered to the originally requested keyword order. -/
def combineBatches (keywords : List String) (anchor : String)
    (df1 df2 : Frame) : Frame :=
  if df1.isEmpty ∧ df2.isEmpty then []
  else if df2.isEmpty then df1
  else if df1.isEmpty then df2
  else if ¬ (anchor ∈ df1.map Prod.fst ∧ anchor ∈ df2.map Prod.fst) then
    df1 ++ dropColumn df2 anchor
  else
    let scale := computeScale df1 df2 anchor
    let df2_scaled := scaleFrame df2 anchor scale
    let combined := df1 ++ dropColumn df2_scaled anchor
    (keywords.filter (fun k => k ∈ combined.map Prod.fst)).map
      (fun k => (k, colOf combined k))

/-- `pytrends_fetch_with_anchor` (lines 53-152): no keywords yield an empty
frame; at most 5 keywords are fetched in one batch; otherwise two batches
are fetched (batch 1 = first 5 keys, batch 2 = anchor + remaining, the
anchor defaulting to the first keyword) and combined.  `resps1`/`resps2`
hold the per-attempt provider outcomes of the two fetches. -/
def pytrends_fetch_with_anchor (keywords : List String)
    (anchorKeyword : Option String) (resps1 resps2 : List TrendResp) :
    Frame :=
  if keywords.isEmpty then []
  else if keywords.length ≤ 5 then try_build_and_get resps1
  else
    let anchor := match anchorKeyword with
      | some a => a
      | none => keywords.headD ""
    let df1 := try_build_and_get resps1
    let df2 := try_build_and_get resps2
    combineBatches keywords anchor df1 df2

/-! ## Trends monthly average (`market_watch_auto.main`, lines 208-226) -/

/-- A monthly frame whose value columns are aligned to a shared index. -/
structure MonFrame where
  idx : List Nat
  cols : List (String × List (Option ℚ))

/-- `trends_daily.resample("M").mean()`: each column resampled to the
monthly mean (columns share the frame's rows, so the span is common). -/
def frame_monthly_mean (f : Frame) : List (String × MCol) :=
  f.map (fun c => (c.1, resample_mean c.2))

/-- Value of column `k` at row `i` of a monthly frame. -/
def cellAt (f : MonFrame) (k : String) (i : Nat) : Option ℚ :=
  match f.cols.find? (fun c => c.1 = k) with
  | none => none
  | some c => c.2.getD i none

/-- `df[present].mean(axis=1)` at one row: pandas skips `NaN` cells and
averages the rest, yielding `NaN` only when every cell is missing. -/
def rowMeanSkipna (vs : List (Option ℚ)) : Option ℚ :=
  match vs.filterMap id with
  | [] => none
  | ws => some (ws.sum / ws.length)

/-- Lines 213-219: when the monthly trends frame is non-empty and at least
one requested keyword column is present, the derived `trends_avg` column is
the row-wise skip-`NaN` mean of the present keyword columns; otherwise no
column is produced (and `pieces` gets no `trends_avg` entry). -/
def trends_avg_col (f : MonFrame) (keywords : List String) :
    Option (List (Option ℚ)) :=
  if f.idx.isEmpty then none
  else
    let present := keywords.filter (fun k => k ∈ f.cols.map Prod.fst)
    if present.isEmpty then none
    else some ((List.range f.idx.length).map (fun i =>
      rowMeanSkipna (present.map (fun k => cellAt f k i))))

/-! ## Main control flow -/

/-- Result of a run: the placeholder/sentinel path (exit code 1) or a
produced panel (exit code 0). -/
inductive RunResult
  | sentinel
  | panel
deriving DecidableEq

/-- `market_watch_macro.main` (lines 81-104): the three FRED series are
fetched in sequence — a `fetch_fred` exception propagates out of `main` —
then the three derived frames are built and, when all are empty, the
placeholder CSV is written and the run returns 1; otherwise the combined
panel is produced (its export/plotting is outside the model). -/
def macro_main (rM2 rHY rVIX : List FredResp) : Except String RunResult := do
  let m2opt ← macro_fetch_fred rM2
  let hyopt ← macro_fetch_fred rHY
  let vixopt ← macro_fetch_fred rVIX
  let m2_yoy := compute_m2_yoy (m2opt.getD [])
  let hy_bps := hy_to_bps (hyopt.getD [])
  let vix_mon := vix_monthly (vixopt.getD [])
  if m2_yoy.isEmpty && hy_bps.isEmpty && vix_mon.isEmpty then
    return .sentinel
  else
    return .panel

/-- Whether a fetched frame is empty (`df.empty`: no rows). -/
def frameEmpty (f : Frame) : Bool :=
  f.all (fun c => c.2.isEmpty)

/-- `market_watch_auto.main` (lines 168-241), data path: every fetch
failure has already been downgraded to an empty frame, the four monthly
pieces are assembled, and an empty `pieces` dict routes to the placeholder
path (return 1); otherwise the merged panel is produced (return 0). -/
def auto_main (rM2 rHY rVIX : FredResp) (resps1 resps2 : List TrendResp)
    (keywords : List String) : RunResult :=
  let m2_yoy := compute_m2_yoy (fetch_fred_auto rM2)
  let hy_mon := to_monthly_mean (fetch_fred_auto rHY)
  let vix_mon := to_monthly_mean (fetch_fred_auto rVIX)
  let trends_daily := pytrends_fetch_with_anchor keywords
    keywords.head? resps1 resps2
  let trends_mon := if frameEmpty trends_daily then [] else
    frame_monthly_mean trends_daily
  let has_trends_avg :=
    ¬ (trends_mon.isEmpty ∨
        (keywords.filter (fun k => k ∈ trends_mon.map Prod.fst)).isEmpty)
  if m2_yoy.isEmpty ∧ ¬ has_trends_avg ∧ hy_mon.isEmpty ∧ vix_mon.isEmpty
  then .sentinel
  else .panel

/-! ## Panel alignment and gap filling
(`combined = pd.concat(pieces, axis=1).sort_index().ffill().bfill()`,
auto lines 238-239 and macro lines 99-100) -/

/-- Forward fill with a carried last non-missing value. -/
def ffillO : Option ℚ → List (Option ℚ) → List (Option ℚ)
  | _, [] => []
  | carry, none :: xs => carry :: ffillO carry xs
  | _, some v :: xs => some v :: ffillO (some v) xs

/-- `Series.ffill()`. -/
def forwardFill (l : List (Option ℚ)) : List (Option ℚ) :=
  ffillO none l

/-- `Series.bfill()`: forward fill on the reversed series. -/
def backwardFill (l : List (Option ℚ)) : List (Option ℚ) :=
  (ffillO none l.reverse).reverse

/-- The sorted, duplicate-free union of the columns' indices
(`pd.concat(..., axis=1)`'s outer join followed by `sort_index()`). -/
def sortedUnion (idxs : List (List Nat)) : List Nat :=
  List.insertionSort (· ≤ ·) idxs.flatten.dedup

/-- Cell of a monthly column at timestamp `t` after the outer join: `none`
when the column has no row at `t`, otherwise that row's (possibly `NaN`)
value. -/
def outerCell (c : MCol) (t : Nat) : Option ℚ :=
  (c.find? (fun r => r.1 = t)).bind Prod.snd

/-- The merge of lines 238-239 / 99-100: outer-join the columns onto the
sorted union of their indices, then forward-fill, then backward-fill each
column. -/
def combinePanel (cols : List MCol) : List Nat × List (List (Option ℚ)) :=
  let idx := sortedUnion (cols.map (List.map Prod.fst))
  (idx, cols.map (fun c => backwardFill (forwardFill
    (idx.map (fun t => outerCell c t)))))

/-- The last non-missing cell at or before position `i`. -/
def lastObs (l : List (Option ℚ)) (i : Nat) : Option ℚ :=
  ((l.take (i + 1)).reverse).findSome? id

/-- The first non-missing cell strictly after position `i`. -/
def nextObs (l : List (Option ℚ)) (i : Nat) : Option ℚ :=
  (l.drop (i + 1)).findSome? id

/-- On a duplicate-free list, filtering out the members of `l.take n`
keeps exactly `l.drop n`. -/
theorem filter_not_mem_append {α : Type} [DecidableEq α] (l1 l2 : List α)
    (hdisj : l1.Disjoint l2) :
    (l1 ++ l2).filter (fun k => ¬ k ∈ l1) = l2 := by
  rw [List.filter_append]
  have e1 : l1.filter (fun k => ¬ k ∈ l1) = [] := by
    rw [List.filter_eq_nil_iff]
    intro a ha
    simp [ha]
  have e2 : l2.filter (fun k => ¬ k ∈ l1) = l2 := by
    rw [List.filter_eq_self]
    intro a ha
    simp only [decide_not, Bool.not_eq_true', decide_eq_false_iff_not]
    exact fun hmem => hdisj hmem ha
  rw [e1, e2, List.nil_append]

theorem filter_not_mem_take {α : Type} [DecidableEq α] (l : List α) (n : Nat)
    (h : l.Nodup) :
    l.filter (fun k => ¬ k ∈ l.take n) = l.drop n := by
  have hnd := h
  rw [← List.take_append_drop n l, List.nodup_append] at hnd
  obtain ⟨h1, h2, hdisj⟩ := hnd
  have key := filter_not_mem_append (l.take n) (l.drop n) hdisj
  rw [List.take_append_drop] at key
  exact key

/-- C1 (counterexample): with 10 requested keys and the hard-coded capacity
K = 5, the code produces a second batch `[anchor] + all 5 remaining keys` of
length 6 > K, so the planned batches do not all respect the capacity and the
second batch is not `[anchor] + next K−1 uncovered keys`. -/
theorem C1_counterexample :
    (planBatches ["k0", "k1", "k2", "k3", "k4", "k5", "k6", "k7", "k8", "k9"]
        none).getD 1 [] = ["k0", "k5", "k6", "k7", "k8", "k9"] ∧
    5 < ((planBatches ["k0", "k1", "k2", "k3", "k4", "k5", "k6", "k7", "k8", "k9"]
        none).getD 1 []).length := by
  constructor
  · decide
  · decide

/-- C1 (amended): for a duplicate-free request of N > 5 keys with the default
anchor (the first key), the planner produces exactly two batches:
batch 1 = the first 5 keys and batch 2 = `[anchor] + all remaining keys`
(not limited to K−1 of them); the anchor appears in every batch; every
requested key appears exactly once in a non-anchor role (batch 1 followed by
batch 2's tail is exactly the request); and every batch has at most 5 keys
only when N ≤ 9. -/
theorem C1_two_batch_plan (keywords : List String)
    (h5 : 5 < keywords.length) (hnd : keywords.Nodup) :
    planBatches keywords none =
      [keywords.take 5, keywords.headD "" :: keywords.drop 5] ∧
    (∀ b ∈ planBatches keywords none, keywords.headD "" ∈ b) ∧
    ((planBatches keywords none).headD [] ++
        ((planBatches keywords none).getD 1 []).tail = keywords) ∧
    (keywords.length ≤ 9 → ∀ b ∈ planBatches keywords none, b.length ≤ 5) := by
  obtain ⟨a, rest, rfl⟩ : ∃ a rest, keywords = a :: rest := by
    cases keywords with
    | nil => simp at h5
    | cons a rest => exact ⟨a, rest, rfl⟩
  have hred : planBatches (a :: rest) none =
      [(a :: rest).take 5,
        (a :: rest).headD "" ::
          (a :: rest).filter (fun k => ¬ k ∈ (a :: rest).take 5)] := by
    unfold planBatches
    rw [if_neg (by simp only [List.length_cons] at h5 ⊢; omega)]
  have hplan : planBatches (a :: rest) none =
      [(a :: rest).take 5, (a :: rest).headD "" :: (a :: rest).drop 5] := by
    rw [hred, filter_not_mem_take _ 5 hnd]
  refine ⟨hplan, ?_, ?_, ?_⟩
  · intro b hb
    rw [hplan] at hb
    simp only [List.mem_cons, List.mem_singleton, List.not_mem_nil, or_false] at hb
    rcases hb with rfl | rfl
    · simp [List.take_cons]
    · simp
  · rw [hplan]
    simp [List.take_append_drop]
  · intro h9 b hb
    rw [hplan] at hb
    simp only [List.mem_cons, List.mem_singleton, List.not_mem_nil, or_false] at hb
    have hlen : (a :: rest).length = rest.length + 1 := by simp
    rcases hb with rfl | rfl
    · simp only [List.length_take]
      omega
    · simp only [List.length_cons, List.length_drop]
      simp only [List.length_cons] at h9 ⊢
      omega

/-- C1 witness: the amended planner theorem applied to a concrete 7-key
request. -/
theorem C1_two_batch_plan_witness :
    planBatches ["a", "b", "c", "d", "e", "f", "g"] none =
      [["a", "b", "c", "d", "e"], ["a", "f", "g"]] := by
  have h := C1_two_batch_plan ["a", "b", "c", "d", "e", "f", "g"]
    (by decide) (by decide)
  exact h.1.trans (by decide)

/-- When every attempt raises or returns `None`, the trends fetch loop
falls through to `return pd.DataFrame()`. -/
theorem try_build_and_get_exhausted (rs : List TrendResp)
    (hr : ∀ r ∈ rs, r = TrendResp.raises ∨ r = TrendResp.noneDf) :
    try_build_and_get rs = [] := by
  induction rs with
  | nil => rfl
  | cons r rest ih =>
    have hr0 := hr r (List.mem_cons_self r rest)
    have hrest := fun x hx => hr x (List.mem_cons_of_mem r hx)
    rcases hr0 with rfl | rfl
    · simpa [try_build_and_get] using ih hrest
    · simpa [try_build_and_get] using ih hrest

/-- When every attempt raises, `market_watch_macro.fetch_fred` reaches its
final `raise RuntimeError(...)`. -/
theorem macro_fetch_fred_all_raise (ms : List FredResp)
    (hm : ∀ m ∈ ms, m = FredResp.raises) :
    macro_fetch_fred ms = .error "RuntimeError" := by
  induction ms with
  | nil => rfl
  | cons m rest ih =>
    have hm0 := hm m (List.mem_cons_self m rest)
    subst hm0
    simpa [macro_fetch_fred] using
      ih (fun x hx => hm x (List.mem_cons_of_mem _ hx))

/-- C3 (counterexample): in `market_watch_macro.fetch_fred` the failure IS
thrown after the default 3 attempts are exhausted — `raise RuntimeError`
propagates out — contradicting "never thrown as an exception". -/
theorem C3_counterexample :
    macro_fetch_fred [.raises, .raises, .raises] = .error "RuntimeError" :=
  rfl

/-- C3 (amended): the trends batch fetch (`try_build_and_get`) reports
exhausted attempts upward as an empty frame and never throws, but the macro
variant's FRED fetch raises `RuntimeError` once its attempts are
exhausted. -/
theorem C3_retry_exhaustion (rs : List TrendResp) (ms : List FredResp)
    (hr : ∀ r ∈ rs, r = TrendResp.raises ∨ r = TrendResp.noneDf)
    (hm : ∀ m ∈ ms, m = FredResp.raises) :
    try_build_and_get rs = [] ∧
    macro_fetch_fred ms = .error "RuntimeError" :=
  ⟨try_build_and_get_exhausted rs hr, macro_fetch_fred_all_raise ms hm⟩

/-- C3 witness: three exhausted attempts on each path. -/
theorem C3_retry_exhaustion_witness :
    try_build_and_get [TrendResp.raises, TrendResp.noneDf, TrendResp.raises]
        = [] ∧
    macro_fetch_fred [FredResp.raises, FredResp.raises, FredResp.raises]
        = .error "RuntimeError" :=
  C3_retry_exhaustion _ _ (by decide) (by decide)

/-- When both batch fetches came back empty, `pytrends_fetch_with_anchor`
returns an empty frame on every branch. -/
theorem pytrends_both_empty (keywords : List String)
    (anchorKeyword : Option String) (resps1 resps2 : List TrendResp)
    (h1 : try_build_and_get resps1 = [])
    (h2 : try_build_and_get resps2 = []) :
    pytrends_fetch_with_anchor keywords anchorKeyword resps1 resps2 = [] := by
  unfold pytrends_fetch_with_anchor
  by_cases hk : keywords.isEmpty
  · rw [if_pos hk]
  · rw [if_neg hk]
    by_cases h5 : keywords.length ≤ 5
    · rw [if_pos h5]; exact h1
    · rw [if_neg h5]
      simp only [h1, h2]
      rfl

/-- A failed FRED source in `market_watch_auto` is an empty frame. -/
theorem fetch_fred_auto_failed (a : FredResp)
    (ha : ∀ rows, ¬ a = FredResp.ok rows) : fetch_fred_auto a = [] := by
  cases a with
  | raises => rfl
  | emptyDf => rfl
  | ok rows => exact absurd rfl (ha rows)

/-- C2 (counterexample): when every configured source fails by exhausting
its retries with errors, `market_watch_macro.main` does not reach the merge
step at all — the first `fetch_fred` raises `RuntimeError` and the run
crashes instead of returning the "no data" sentinel. -/
theorem C2_counterexample :
    macro_main [.raises, .raises, .raises] [.raises, .raises, .raises]
      [.raises, .raises, .raises] = .error "RuntimeError" :=
  rfl

/-- C2 (amended): the merge step itself does return the sentinel without
raising — in `market_watch_macro.main` when every source failed by
returning an empty result (the no-exception failure mode), and in
`market_watch_auto.main` for every total-failure mode (its fetch wrappers
downgrade all failures to empty frames) — but a macro-variant source that
fails by exhausting its retries with errors raises before the merge is
reached. -/
theorem C2_total_failure_sentinel
    (r1 r2 r3 : List FredResp) (a1 a2 a3 : FredResp)
    (t1 t2 : List TrendResp) (keywords : List String)
    (h1 : macro_fetch_fred r1 = .ok none)
    (h2 : macro_fetch_fred r2 = .ok none)
    (h3 : macro_fetch_fred r3 = .ok none)
    (ha1 : ∀ rows, ¬ a1 = FredResp.ok rows)
    (ha2 : ∀ rows, ¬ a2 = FredResp.ok rows)
    (ha3 : ∀ rows, ¬ a3 = FredResp.ok rows)
    (ht1 : ∀ r ∈ t1, r = TrendResp.raises ∨ r = TrendResp.noneDf)
    (ht2 : ∀ r ∈ t2, r = TrendResp.raises ∨ r = TrendResp.noneDf) :
    macro_main r1 r2 r3 = .ok .sentinel ∧
    auto_main a1 a2 a3 t1 t2 keywords = .sentinel := by
  constructor
  · unfold macro_main
    rw [h1, h2, h3]
    rfl
  · unfold auto_main
    rw [fetch_fred_auto_failed a1 ha1, fetch_fred_auto_failed a2 ha2,
      fetch_fred_auto_failed a3 ha3,
      pytrends_both_empty keywords keywords.head? t1 t2
        (try_build_and_get_exhausted t1 ht1)
        (try_build_and_get_exhausted t2 ht2)]
    rfl

/-- C2 witness: every macro source empty, every auto source failed. -/
theorem C2_total_failure_sentinel_witness :
    macro_main [FredResp.emptyDf] [FredResp.raises, FredResp.emptyDf]
        [FredResp.emptyDf] = .ok .sentinel ∧
    auto_main FredResp.raises FredResp.emptyDf FredResp.raises
        [TrendResp.raises, TrendResp.noneDf] [TrendResp.raises]
        ["a", "b", "c", "d", "e", "f"] = .sentinel :=
  C2_total_failure_sentinel _ _ _ _ _ _ _ _ _
    rfl rfl rfl
    (fun _ h => nomatch h) (fun _ h => nomatch h) (fun _ h => nomatch h)
    (by decide) (by decide)

/-- A non-empty value list has a median. -/
theorem medianQ_isSome (l : List ℚ) (h : l ≠ []) :
    ∃ med, medianQ l = some med := by
  unfold medianQ
  have hlen : (List.insertionSort (fun a b => a ≤ b) l).length = l.length :=
    List.length_insertionSort _ l
  have h0 : ¬ (List.insertionSort (fun a b => a ≤ b) l).length = 0 := by
    rw [hlen]
    simpa [List.length_eq_zero] using h
  rw [if_neg h0]
  by_cases hp : (List.insertionSort (fun a b => a ≤ b) l).length % 2 = 1
  · exact ⟨_, by rw [if_pos hp]⟩
  · exact ⟨_, by rw [if_neg hp]⟩

/-- C7: for a series with at least one non-missing value, the percent-to-bps
normalizer multiplies every value by 100 exactly when the absolute median of
the non-missing values is strictly below the threshold 20, leaves the
series unchanged otherwise, and in particular leaves a series with median
exactly 20 unchanged. -/
theorem C7_unit_threshold (vals : List (Option ℚ))
    (h : vals.filterMap id ≠ []) :
    ∃ med, medianQ (vals.filterMap id) = some med ∧
      (|med| < 20 →
        unit_normalize vals = vals.map (Option.map (fun v => v * 100))) ∧
      (¬ |med| < 20 → unit_normalize vals = vals) ∧
      (med = 20 → unit_normalize vals = vals) := by
  obtain ⟨med, hmed⟩ := medianQ_isSome _ h
  refine ⟨med, hmed, ?_, ?_, ?_⟩
  · intro hlt
    simp only [unit_normalize, hmed]
    rw [if_pos hlt]
  · intro hge
    simp only [unit_normalize, hmed]
    rw [if_neg hge]
  · intro h20
    subst h20
    simp only [unit_normalize, hmed]
    rw [if_neg (by norm_num)]

/-- C7 witness: a series of medians 4 is converted to basis points. -/
theorem C7_unit_threshold_witness :
    unit_normalize [some 5, none, some 3] = [some 500, none, some 300] := by
  obtain ⟨med, hmed, hlt, -, -⟩ :=
    C7_unit_threshold [some 5, none, some 3] (by decide)
  have h4 : medianQ ([some 5, none, some 3].filterMap id) = some 4 := by
    norm_num [medianQ, List.insertionSort, List.orderedInsert]
  rw [hmed] at h4
  obtain rfl : med = 4 := Option.some.inj h4
  rw [hlt (by norm_num)]
  norm_num

/-- Zipping the index column with a transformed value column rebuilds the
rows. -/
theorem zip_fst_map (l : MCol) (f : Option ℚ → Option ℚ) :
    (l.map Prod.fst).zip ((l.map Prod.snd).map f) =
      l.map (fun r => (r.1, f r.2)) := by
  induction l with
  | nil => rfl
  | cons x xs ih => simp only [List.map_cons, List.zip_cons_cons, ih]

/-- Zipping the index column with the value column rebuilds the rows. -/
theorem zip_fst_snd (l : MCol) : (l.map Prod.fst).zip (l.map Prod.snd) = l := by
  induction l with
  | nil => rfl
  | cons x xs ih => simp only [List.map_cons, List.zip_cons_cons, ih]

/-- Scaling every cell by 1 is the identity. -/
theorem map_mul_one (l : MCol) :
    l.map (fun r => (r.1, r.2.map (fun v => v * 1))) = l := by
  induction l with
  | nil => rfl
  | cons x xs ih =>
    rcases x with ⟨t, v⟩
    cases v <;> simp [ih]

/-- C6 (counterexample): `market_watch_macro` downsamples the HY spread and
VIX with `.last()`, not `.mean()`: over a month holding the observations
2 then 4, the macro HY pipeline keeps the last observation 4 (scaled to 400
bps) where the mean-of-period policy would give 3; a VIX month holding 10
then 30 keeps 30 where the mean policy would give 20. -/
theorem C6_counterexample :
    hy_to_bps [((0, 1), 2), ((0, 2), 4)] = [(0, some 400)] ∧
    resample_mean [((0, 1), 2), ((0, 2), 4)] = [(0, some 3)] ∧
    vix_monthly [((0, 1), 10), ((0, 2), 30)] = [(0, some 30)] ∧
    resample_mean [((0, 1), 10), ((0, 2), 30)] = [(0, some 20)] := by
  refine ⟨?_, ?_, ?_, ?_⟩
  · norm_num [hy_to_bps, resample_last, monthSpan, rowsInMonth, bestRow,
      lastInMonth, unit_normalize, medianQ, List.insertionSort,
      List.orderedInsert, List.min?, List.max?, List.range']
  · have h1 : rowsInMonth [((0, 1), 2), ((0, 2), 4)] 0 = [(1, 2), (2, 4)] := by
      norm_num [rowsInMonth, List.filterMap_cons]
    norm_num [resample_mean, monthSpan, meanInMonth, h1,
      List.min?, List.max?, List.range']
  · norm_num [vix_monthly, resample_last, monthSpan, rowsInMonth, bestRow,
      lastInMonth, List.min?, List.max?, List.range']
  · have h1 : rowsInMonth [((0, 1), 10), ((0, 2), 30)] 0 = [(1, 10), (2, 30)] := by
      norm_num [rowsInMonth, List.filterMap_cons]
    norm_num [resample_mean, monthSpan, meanInMonth, h1,
      List.min?, List.max?, List.range']

/-- C6 (amended): in the macro variant the VIX (and the HY spread inside
`hy_to_bps`, up to the uniform unit factor) is downsampled by
last-observation-in-month, while the auto variant's `to_monthly_mean`
downsamples by mean-of-period. -/
theorem C6_aggregation_policies (m d1 d2 : Nat) (a b : ℚ) (hd : d1 ≤ d2)
    (hy : DCol) (hhy : ¬ hy.isEmpty = true) :
    vix_monthly [((m, d1), a), ((m, d2), b)] = [(m, some b)] ∧
    to_monthly_mean [((m, d1), a), ((m, d2), b)] = [(m, some ((a + b) / 2))] ∧
    ∃ s, (s = 100 ∨ s = 1) ∧
      hy_to_bps hy =
        (resample_last hy).map (fun r => (r.1, r.2.map (fun v => v * s))) := by
  have hspan : monthSpan [((m, d1), a), ((m, d2), b)] = [m] := by
    simp only [monthSpan, List.map_cons, List.map_nil, List.min?, List.max?,
      List.foldl, Nat.min_self, Nat.max_self]
    rw [Nat.add_sub_cancel_left]
    exact List.range'_one
  have hrows : rowsInMonth [((m, d1), a), ((m, d2), b)] m = [(d1, a), (d2, b)] := by
    simp [rowsInMonth, List.filterMap_cons]
  have hlast : lastInMonth [((m, d1), a), ((m, d2), b)] m = some b := by
    simp [lastInMonth, hrows, bestRow, hd]
  have hmean : meanInMonth [((m, d1), a), ((m, d2), b)] m = some ((a + b) / 2) := by
    unfold meanInMonth
    rw [hrows]
    norm_num
  refine ⟨?_, ?_, ?_⟩
  · simp [vix_monthly, resample_last, hspan, hlast]
  · simp [to_monthly_mean, resample_mean, hspan, hmean]
  · rcases hmd : medianQ (((resample_last hy).map Prod.snd).filterMap id)
      with _ | med
    · refine ⟨1, Or.inr rfl, ?_⟩
      unfold hy_to_bps
      rw [if_neg hhy]
      simp only [unit_normalize, hmd]
      rw [zip_fst_snd, map_mul_one]
    · by_cases hlt : |med| < 20
      · refine ⟨100, Or.inl rfl, ?_⟩
        unfold hy_to_bps
        rw [if_neg hhy]
        simp only [unit_normalize, hmd, if_pos hlt]
        exact zip_fst_map _ _
      · refine ⟨1, Or.inr rfl, ?_⟩
        unfold hy_to_bps
        rw [if_neg hhy]
        simp only [unit_normalize, hmd, if_neg hlt]
        rw [zip_fst_snd, map_mul_one]

/-- C6 witness: the amended policy theorem at a concrete month. -/
theorem C6_aggregation_policies_witness :
    vix_monthly [((3, 1), 10), ((3, 2), 30)] = [(3, some 30)] ∧
    to_monthly_mean [((3, 1), 10), ((3, 2), 30)] = [(3, some 20)] := by
  have h := C6_aggregation_policies 3 1 2 10 30 (by norm_num)
    [((0, 5), 7)] (by decide)
  refine ⟨h.1, ?_⟩
  rw [h.2.1]
  norm_num

/-- C4: over a non-empty timestamp intersection with a nonzero batch-2
anchor mean, the computed scale factor times the batch-2 anchor mean gives
back exactly the batch-1 anchor mean over the same overlap (exact in ℚ,
hence within any floating-point tolerance). -/
theorem C4_scale_inverts_mean (df1 df2 : Frame) (anchor : String)
    (hne : ¬ (commonIndex (colOf df1 anchor) (colOf df2 anchor)).isEmpty = true)
    (ha2 : meanOver (colOf df2 anchor)
        (commonIndex (colOf df1 anchor) (colOf df2 anchor)) ≠ 0) :
    computeScale df1 df2 anchor *
        meanOver (colOf df2 anchor)
          (commonIndex (colOf df1 anchor) (colOf df2 anchor)) =
      meanOver (colOf df1 anchor)
        (commonIndex (colOf df1 anchor) (colOf df2 anchor)) := by
  unfold computeScale
  rw [if_neg hne, if_pos ha2]
  exact div_mul_cancel₀ _ ha2

/-- C4 witness: two batches overlapping at one timestamp with anchor means
10 and 5 give scale 2, and 2 × 5 = 10. -/
theorem C4_scale_inverts_mean_witness :
    computeScale [("a", [((0, 1), 10), ((0, 2), 20)])]
        [("a", [((0, 1), 5)]), ("x", [((0, 1), 7)])] "a" *
        meanOver (colOf [("a", [((0, 1), 5)]), ("x", [((0, 1), 7)])] "a")
          (commonIndex
            (colOf [("a", [((0, 1), 10), ((0, 2), 20)])] "a")
            (colOf [("a", [((0, 1), 5)]), ("x", [((0, 1), 7)])] "a")) =
      meanOver (colOf [("a", [((0, 1), 10), ((0, 2), 20)])] "a")
        (commonIndex
          (colOf [("a", [((0, 1), 10), ((0, 2), 20)])] "a")
          (colOf [("a", [((0, 1), 5)]), ("x", [((0, 1), 7)])] "a")) := by
  refine C4_scale_inverts_mean _ _ _ (by decide) ?_
  have hcommon : commonIndex
      (colOf [("a", [((0, 1), 10), ((0, 2), 20)])] "a")
      (colOf [("a", [((0, 1), 5)]), ("x", [((0, 1), 7)])] "a") = [(0, 1)] := by
    decide
  rw [hcommon]
  norm_num [meanOver, colOf, colAt, List.find?]

/-- A fully-finite series is unchanged by the pad fill. -/
theorem ffillM_all_fin (c : Option MFloat) (vals : List ℚ) :
    ffillM c (vals.map MFloat.fin) = vals.map MFloat.fin := by
  induction vals generalizing c with
  | nil => rfl
  | cons v vs ih => simp [ffillM, ih]

/-- `pct_change12` keeps the series length. -/
theorem pct_change12_length (v : List MFloat) :
    (pct_change12 v).length = v.length := by
  simp [pct_change12]

/-- Reading an all-finite series at a valid index. -/
theorem getD_map_fin (vals : List ℚ) (i : Nat) (hi : i < vals.length) :
    (vals.map MFloat.fin).getD i .nan = .fin (vals.getD i 0) := by
  rw [List.getD_eq_getElem?_getD, List.getD_eq_getElem?_getD,
    List.getElem?_map, List.getElem?_eq_getElem hi]
  rfl

/-- Pointwise reading of `pct_change12`. -/
theorem pct_change12_getD (v : List MFloat) (i : Nat) (hi : i < v.length) :
    (pct_change12 v).getD i .nan =
      if i < 12 then .nan
      else subOneM (divM ((ffillM none v).getD i .nan)
        ((ffillM none v).getD (i - 12) .nan)) := by
  simp only [pct_change12]
  rw [List.getD_eq_getElem?_getD, List.getElem?_map, List.getElem?_range hi]
  rfl

/-- Pointwise reading of the YoY column. -/
theorem m2_yoy_vals_getD (v : List MFloat) (i : Nat) (hi : i < v.length) :
    (m2_yoy_vals v).getD i .nan =
      mulHundredM ((pct_change12 v).getD i .nan) := by
  have hlen : i < (pct_change12 v).length := by
    rw [pct_change12_length]; exact hi
  unfold m2_yoy_vals
  rw [List.getD_eq_getElem?_getD, List.getElem?_map,
    List.getElem?_eq_getElem hlen, List.getD_eq_getElem?_getD,
    List.getElem?_eq_getElem hlen]
  rfl

/-- On a fully-present series, the YoY value at a month `i ≥ 12` is the
float image of the ratio of the level to the level 12 months earlier. -/
theorem m2_yoy_vals_fin_getD (vals : List ℚ) (i : Nat)
    (h12 : 12 ≤ i) (hi : i < vals.length) :
    (m2_yoy_vals (vals.map MFloat.fin)).getD i .nan =
      mulHundredM (subOneM (divM (.fin (vals.getD i 0))
        (.fin (vals.getD (i - 12) 0)))) := by
  have hi' : i < (vals.map MFloat.fin).length := by
    rw [List.length_map]; exact hi
  rw [m2_yoy_vals_getD _ _ hi', pct_change12_getD _ _ hi',
    if_neg (by omega), ffillM_all_fin, getD_map_fin _ _ hi,
    getD_map_fin _ _ (by omega)]

/-- Scaling a frame leaves its column names unchanged. -/
theorem scaleFrame_names (df : Frame) (a : String) (s : ℚ) :
    (scaleFrame df a s).map Prod.fst = df.map Prod.fst := by
  induction df with
  | nil => rfl
  | cons c cs ih =>
    by_cases h : c.1 = a <;> simp [scaleFrame, h] <;>
      simpa [scaleFrame] using ih

/-- Looking a non-anchor column up after dropping the anchor column is
looking it up directly. -/
theorem find?_dropColumn (df : Frame) (a k : String) (hk : ¬ k = a) :
    (dropColumn df a).find? (fun c => c.1 = k) =
      df.find? (fun c => c.1 = k) := by
  induction df with
  | nil => rfl
  | cons c cs ih =>
    by_cases hca : c.1 = a
    · have hck : ¬ c.1 = k := by
        rw [hca]
        exact fun h => hk h.symm
      have hstep : dropColumn (c :: cs) a = dropColumn cs a := by
        simp [dropColumn, List.filter_cons, hca]
      rw [hstep, ih, List.find?_cons_of_neg _ (by simp [hck])]
    · have hstep : dropColumn (c :: cs) a = c :: dropColumn cs a := by
        simp [dropColumn, List.filter_cons, hca]
      rw [hstep]
      by_cases hck : c.1 = k
      · rw [List.find?_cons_of_pos _ (by simp [hck]),
          List.find?_cons_of_pos _ (by simp [hck])]
      · rw [List.find?_cons_of_neg _ (by simp [hck]),
          List.find?_cons_of_neg _ (by simp [hck]), ih]

/-- Looking a non-anchor column up in the scaled frame yields the scaled
original column. -/
theorem find?_scaleFrame (df : Frame) (a k : String) (s : ℚ) (hk : ¬ k = a) :
    (scaleFrame df a s).find? (fun c => c.1 = k) =
      (df.find? (fun c => c.1 = k)).map
        (fun c => (c.1, c.2.map (fun r => (r.1, r.2 * s)))) := by
  induction df with
  | nil => rfl
  | cons c cs ih =>
    by_cases hca : c.1 = a
    · have hck : ¬ c.1 = k := by
        rw [hca]
        exact fun h => hk h.symm
      have hstep : scaleFrame (c :: cs) a s = c :: scaleFrame cs a s := by
        simp [scaleFrame, hca]
      rw [hstep, List.find?_cons_of_neg _ (by simp [hck]), ih,
        List.find?_cons_of_neg _ (by simp [hck])]
    · have hstep : scaleFrame (c :: cs) a s =
          (c.1, c.2.map (fun r => (r.1, r.2 * s))) :: scaleFrame cs a s := by
        simp [scaleFrame, hca]
      rw [hstep]
      by_cases hck : c.1 = k
      · rw [List.find?_cons_of_pos _ (by simp [hck]),
          List.find?_cons_of_pos _ (by simp [hck])]
        rfl
      · rw [List.find?_cons_of_neg _ (by simp [hck]),
          List.find?_cons_of_neg _ (by simp [hck]), ih]

/-- A frame search succeeds on a listed column name. -/
theorem find?_isSome_of_mem (df : Frame) (k : String)
    (h : k ∈ df.map Prod.fst) :
    ∃ c, df.find? (fun c => c.1 = k) = some c ∧ c.1 = k := by
  induction df with
  | nil => simp at h
  | cons c cs ih =>
    by_cases hck : c.1 = k
    · exact ⟨c, by simp [List.find?, hck], hck⟩
    · have : k ∈ cs.map Prod.fst := by
        simp only [List.map_cons, List.mem_cons] at h
        rcases h with h | h
        · exact absurd h.symm hck
        · exact h
      obtain ⟨c0, hc0, hc0k⟩ := ih this
      exact ⟨c0, by simp [List.find?, hck, hc0], hc0k⟩

/-- Searching an appended frame prefers the left part when it has the
column. -/
theorem find?_append_left (df1 df2 : Frame) (k : String)
    (h : k ∈ df1.map Prod.fst) :
    (df1 ++ df2).find? (fun c => c.1 = k) = df1.find? (fun c => c.1 = k) := by
  induction df1 with
  | nil => simp at h
  | cons c cs ih =>
    by_cases hck : c.1 = k
    · simp [List.find?, hck]
    · have : k ∈ cs.map Prod.fst := by
        simp only [List.map_cons, List.mem_cons] at h
        rcases h with h | h
        · exact absurd h.symm hck
        · exact h
      simp [List.find?, hck, ih this]

/-- Searching a keyed selection built by mapping over a key list. -/
theorem find?_selection (ks : List String) (g : String → DCol) (a : String)
    (ha : a ∈ ks) :
    (ks.map (fun k => (k, g k))).find? (fun c => c.1 = a) = some (a, g a) := by
  induction ks with
  | nil => simp at ha
  | cons k ks ih =>
    by_cases hk : k = a
    · subst hk
      simp [List.find?]
    · have : a ∈ ks := by
        rcases List.mem_cons.1 ha with h | h
        · exact absurd h.symm hk
        · exact h
      simp [List.find?, hk, ih this]

/-- Scaling commutes with dropping the anchor column at the level of column
names. -/
theorem dropColumn_scaleFrame_names (df : Frame) (a : String) (s : ℚ) :
    (dropColumn (scaleFrame df a s) a).map Prod.fst =
      (dropColumn df a).map Prod.fst := by
  induction df with
  | nil => rfl
  | cons c cs ih =>
    by_cases hca : c.1 = a <;>
      simp [scaleFrame, dropColumn, List.filter_cons, hca] <;>
      simpa [scaleFrame, dropColumn] using ih

/-- A non-anchor column name survives dropping the anchor column. -/
theorem mem_dropColumn_names (df : Frame) (a k : String) (hk : ¬ k = a)
    (h : k ∈ df.map Prod.fst) : k ∈ (dropColumn df a).map Prod.fst := by
  obtain ⟨c, hc, hck⟩ := find?_isSome_of_mem df k h
  have hcdf : c ∈ df := List.mem_of_find?_eq_some hc
  have hcd : c ∈ dropColumn df a := by
    refine List.mem_filter.2 ⟨hcdf, ?_⟩
    simp only [decide_not, Bool.not_eq_true', decide_eq_false_iff_not]
    exact fun h' => hk (hck ▸ h' ▸ rfl)
  exact List.mem_map.2 ⟨c, hcd, hck⟩

/-- An absent column name makes the search fail. -/
theorem find?_none_of_not_mem (df : Frame) (k : String)
    (h : ¬ k ∈ df.map Prod.fst) :
    df.find? (fun c => c.1 = k) = none := by
  rw [List.find?_eq_none]
  intro c hc
  simp only [decide_eq_true_eq]
  exact fun hck => h (List.mem_map.2 ⟨c, hc, hck⟩)

/-- Searching an appended frame falls through to the right part when the
left search fails. -/
theorem find?_append_none (df1 df2 : Frame) (p : String × DCol → Bool)
    (h : df1.find? p = none) :
    (df1 ++ df2).find? p = df2.find? p := by
  induction df1 with
  | nil => rfl
  | cons c cs ih =>
    by_cases hc : p c = true
    · rw [List.find?_cons_of_pos _ hc] at h
      exact absurd h (by simp)
    · rw [List.find?_cons_of_neg _ (by simpa using hc)] at h
      rw [List.cons_append, List.find?_cons_of_neg _ (by simpa using hc)]
      exact ih h

/-- C9: in the aligned two-batch branch, the combined frame's columns
follow the originally requested keyword order (restricted to the columns
actually present); the anchor column of the output is batch 1's anchor
column (batch 2's, used for the scale, is dropped); and a column only
batch 2 provides appears multiplied by the computed scale. -/
theorem C9_requested_order (keywords : List String) (anchor : String)
    (df1 df2 : Frame) (h1 : ¬ df1.isEmpty = true) (h2 : ¬ df2.isEmpty = true)
    (ha1 : anchor ∈ df1.map Prod.fst) (ha2 : anchor ∈ df2.map Prod.fst) :
    (combineBatches keywords anchor df1 df2).map Prod.fst =
      keywords.filter (fun k =>
        k ∈ (df1 ++ dropColumn df2 anchor).map Prod.fst) ∧
    (anchor ∈ keywords →
      colOf (combineBatches keywords anchor df1 df2) anchor =
        colOf df1 anchor) ∧
    (∀ k ∈ keywords, ¬ k = anchor → ¬ k ∈ df1.map Prod.fst →
      k ∈ df2.map Prod.fst →
      colOf (combineBatches keywords anchor df1 df2) k =
        (colOf df2 k).map (fun r =>
          (r.1, r.2 * computeScale df1 df2 anchor))) := by
  have hred : combineBatches keywords anchor df1 df2 =
      (keywords.filter (fun k =>
        k ∈ (df1 ++ dropColumn (scaleFrame df2 anchor
          (computeScale df1 df2 anchor)) anchor).map Prod.fst)).map
        (fun k => (k, colOf (df1 ++ dropColumn (scaleFrame df2 anchor
          (computeScale df1 df2 anchor)) anchor) k)) := by
    unfold combineBatches
    rw [if_neg (fun h => h1 h.1), if_neg h2, if_neg h1,
      if_neg (not_not_intro ⟨ha1, ha2⟩)]
  have hnames : (df1 ++ dropColumn (scaleFrame df2 anchor
      (computeScale df1 df2 anchor)) anchor).map Prod.fst =
      (df1 ++ dropColumn df2 anchor).map Prod.fst := by
    rw [List.map_append, List.map_append, dropColumn_scaleFrame_names]
  refine ⟨?_, ?_, ?_⟩
  · rw [hred, List.map_map]
    have hid : (Prod.fst ∘ fun k => (k, colOf (df1 ++ dropColumn
        (scaleFrame df2 anchor (computeScale df1 df2 anchor)) anchor) k)) =
        fun (k : String) => k := rfl
    rw [hid, List.map_id']
    simp only [hnames]
  · intro hak
    have hmem : anchor ∈ keywords.filter (fun k =>
        k ∈ (df1 ++ dropColumn (scaleFrame df2 anchor
          (computeScale df1 df2 anchor)) anchor).map Prod.fst) := by
      refine List.mem_filter.2 ⟨hak, ?_⟩
      simp only [decide_eq_true_eq, hnames, List.map_append]
      exact List.mem_append.2 (Or.inl ha1)
    conv_lhs => rw [colOf, hred]
    rw [find?_selection _ _ _ hmem]
    show colOf (df1 ++ dropColumn (scaleFrame df2 anchor
      (computeScale df1 df2 anchor)) anchor) anchor = colOf df1 anchor
    rw [colOf, colOf, find?_append_left _ _ _ ha1]
  · intro k hkk hka hk1 hk2
    have hkdrop : k ∈ (dropColumn (scaleFrame df2 anchor
        (computeScale df1 df2 anchor)) anchor).map Prod.fst := by
      rw [dropColumn_scaleFrame_names]
      exact mem_dropColumn_names df2 anchor k hka hk2
    have hmem : k ∈ keywords.filter (fun k =>
        k ∈ (df1 ++ dropColumn (scaleFrame df2 anchor
          (computeScale df1 df2 anchor)) anchor).map Prod.fst) := by
      refine List.mem_filter.2 ⟨hkk, ?_⟩
      simp only [decide_eq_true_eq, List.map_append]
      exact List.mem_append.2 (Or.inr hkdrop)
    conv_lhs => rw [colOf, hred]
    rw [find?_selection _ _ _ hmem]
    show colOf (df1 ++ dropColumn (scaleFrame df2 anchor
      (computeScale df1 df2 anchor)) anchor) k =
      (colOf df2 k).map (fun r => (r.1, r.2 * computeScale df1 df2 anchor))
    rw [colOf]
    rw [find?_append_none _ _ _ (find?_none_of_not_mem df1 k hk1)]
    rw [find?_dropColumn _ _ _ hka, find?_scaleFrame _ _ _ _ hka]
    obtain ⟨c, hc, hck⟩ := find?_isSome_of_mem df2 k hk2
    rw [colOf, hc]
    rfl

/-- C9 witness: batch 1 holds the anchor "a" and "b"; batch 2 holds "a"
and "c"; the combined output lists the requested order a, b, c, keeps
batch 1's anchor data, and carries batch 2's "c" column scaled. -/
theorem C9_requested_order_witness :
    (combineBatches ["a", "b", "c"] "a"
        [("a", [((0, 1), 10)]), ("b", [((0, 1), 3)])]
        [("a", [((0, 1), 5)]), ("c", [((0, 1), 7)])]).map Prod.fst =
      ["a", "b", "c"] ∧
    colOf (combineBatches ["a", "b", "c"] "a"
        [("a", [((0, 1), 10)]), ("b", [((0, 1), 3)])]
        [("a", [((0, 1), 5)]), ("c", [((0, 1), 7)])]) "a" = [((0, 1), 10)] := by
  have h := C9_requested_order ["a", "b", "c"] "a"
    [("a", [((0, 1), 10)]), ("b", [((0, 1), 3)])]
    [("a", [((0, 1), 5)]), ("c", [((0, 1), 7)])]
    (by decide) (by decide) (by decide) (by decide)
  constructor
  · rw [h.1]
    decide
  · rw [h.2.1 (by decide)]
    rfl

/-- A row mean over fully-present cells is the arithmetic mean of the
values. -/
theorem rowMeanSkipna_all_present (vs : List (Option ℚ)) (hne : vs ≠ [])
    (h : ∀ x ∈ vs, ¬ x = none) :
    rowMeanSkipna vs =
      some ((vs.map (fun x => x.getD 0)).sum / vs.length) := by
  have hfm : ∀ ws : List (Option ℚ), (∀ x ∈ ws, ¬ x = none) →
      ws.filterMap id = ws.map (fun x => x.getD 0) := by
    intro ws
    induction ws with
    | nil => intro _; rfl
    | cons x xs ih =>
      intro hw
      cases x with
      | none => exact absurd rfl (hw none (List.mem_cons_self none xs))
      | some v =>
        simp only [List.filterMap_cons, id, List.map_cons, Option.getD_some]
        rw [ih (fun y hy => hw y (List.mem_cons_of_mem _ hy))]
  cases vs with
  | nil => exact absurd rfl hne
  | cons x xs =>
    cases x with
    | none => exact absurd rfl (h none (List.mem_cons_self none xs))
    | some v =>
      unfold rowMeanSkipna
      rw [hfm _ h]
      simp [List.length_map]

/-- C10: whenever at least one requested keyword column is present in the
non-empty monthly trends frame, the derived `trends_avg` column exists and
its value at each fully-populated month is the arithmetic mean of the
present keyword columns' values for that month; when no keyword column is
present, no column is derived. -/
theorem C10_trends_avg (f : MonFrame) (keywords : List String) :
    ((keywords.filter (fun k => k ∈ f.cols.map Prod.fst)).isEmpty = true →
      trends_avg_col f keywords = none) ∧
    (¬ f.idx.isEmpty = true →
      ¬ (keywords.filter (fun k => k ∈ f.cols.map Prod.fst)).isEmpty = true →
      ∃ col, trends_avg_col f keywords = some col ∧
        col.length = f.idx.length ∧
        ∀ i, i < f.idx.length →
          (∀ k ∈ keywords.filter (fun k => k ∈ f.cols.map Prod.fst),
            ¬ cellAt f k i = none) →
          col.getD i none =
            some (((keywords.filter (fun k => k ∈ f.cols.map Prod.fst)).map
                (fun k => (cellAt f k i).getD 0)).sum /
              (keywords.filter (fun k => k ∈ f.cols.map Prod.fst)).length)) := by
  constructor
  · intro hpres
    unfold trends_avg_col
    by_cases hidx : f.idx.isEmpty
    · rw [if_pos hidx]
    · rw [if_neg hidx, if_pos hpres]
  · intro hidx hpres
    refine ⟨(List.range f.idx.length).map (fun i =>
      rowMeanSkipna ((keywords.filter (fun k => k ∈ f.cols.map Prod.fst)).map
        (fun k => cellAt f k i))), ?_, ?_, ?_⟩
    · unfold trends_avg_col
      rw [if_neg hidx, if_neg hpres]
    · rw [List.length_map, List.length_range]
    · intro i hi hall
      rw [List.getD_eq_getElem?_getD, List.getElem?_map,
        List.getElem?_range hi]
      simp only [Option.map_some', Option.getD_some]
      rw [rowMeanSkipna_all_present]
      · congr 1
        rw [List.map_map, List.length_map]
        rfl
      · intro hmap
        rw [List.map_eq_nil_iff] at hmap
        rw [hmap] at hpres
        exact hpres rfl
      · intro x hx
        obtain ⟨k, hk, rfl⟩ := List.mem_map.1 hx
        exact hall k hk

/-- C10 witness: two keyword columns over two months yield the row-wise
means 2 and 4. -/
theorem C10_trends_avg_witness :
    (trends_avg_col
      ⟨[0, 1], [("a", [some 1, some 3]), ("b", [some 3, some 5])]⟩
      ["a", "b"]).isSome = true := by
  obtain ⟨col, hcol, -, -⟩ :=
    (C10_trends_avg
      ⟨[0, 1], [("a", [some 1, some 3]), ("b", [some 3, some 5])]⟩
      ["a", "b"]).2 (by decide) (by decide)
  rw [hcol]
  rfl

/-- Forward fill keeps the series length. -/
theorem ffillO_length (carry : Option ℚ) (l : List (Option ℚ)) :
    (ffillO carry l).length = l.length := by
  induction l generalizing carry with
  | nil => rfl
  | cons x xs ih => cases x <;> simp [ffillO, ih]

/-- A forward-filled cell is the last observation at or before it, with the
carry as fallback. -/
theorem ffillO_getElem? (carry : Option ℚ) (l : List (Option ℚ)) (i : Nat)
    (hi : i < l.length) :
    (ffillO carry l)[i]? = some ((lastObs l i).or carry) := by
  induction l generalizing carry i with
  | nil => simp at hi
  | cons x xs ih =>
    cases x with
    | none =>
      cases i with
      | zero =>
        show (carry :: ffillO carry xs)[0]? = _
        rw [List.getElem?_cons_zero]
        unfold lastObs
        rw [List.take_succ_cons, List.take_zero]
        simp
      | succ i =>
        have hi' : i < xs.length := by simpa using hi
        show (carry :: ffillO carry xs)[i + 1]? = _
        rw [List.getElem?_cons_succ, ih carry i hi']
        congr 1
        unfold lastObs
        rw [List.take_succ_cons, List.reverse_cons, List.findSome?_append]
        simp [Option.or_assoc]
    | some v =>
      cases i with
      | zero =>
        show (some v :: ffillO (some v) xs)[0]? = _
        rw [List.getElem?_cons_zero]
        unfold lastObs
        rw [List.take_succ_cons, List.take_zero]
        simp
      | succ i =>
        have hi' : i < xs.length := by simpa using hi
        show (some v :: ffillO (some v) xs)[i + 1]? = _
        rw [List.getElem?_cons_succ, ih (some v) i hi']
        congr 1
        unfold lastObs
        rw [List.take_succ_cons, List.reverse_cons, List.findSome?_append]
        simp [Option.or_assoc]

/-- A backward-filled cell is the first observation at or after it. -/
theorem backwardFill_getElem? (L : List (Option ℚ)) (i : Nat)
    (hi : i < L.length) :
    (backwardFill L)[i]? = some ((L.drop i).findSome? id) := by
  unfold backwardFill
  have hlen : (ffillO none L.reverse).length = L.length := by
    rw [ffillO_length, List.length_reverse]
  have hi2 : i < (ffillO none L.reverse).length := by rw [hlen]; exact hi
  rw [List.getElem?_reverse hi2, hlen]
  have hidx : L.length - 1 - i < L.reverse.length := by
    rw [List.length_reverse]; omega
  rw [ffillO_getElem? none L.reverse _ hidx, Option.or_none]
  congr 1
  unfold lastObs
  have h1 : L.length - 1 - i + 1 = L.length - i := by omega
  rw [h1]
  have h2 : L.reverse.take (L.length - i) = (L.drop i).reverse := by
    have h := @List.reverse_take _ L.reverse (L.length - i)
    rw [List.length_reverse, List.reverse_reverse] at h
    have h3 : L.length - (L.length - i) = i := by omega
    rw [h3] at h
    calc L.reverse.take (L.length - i)
        = ((L.reverse.take (L.length - i)).reverse).reverse := by
          rw [List.reverse_reverse]
      _ = (L.drop i).reverse := by rw [h]
  rw [h2, List.reverse_reverse]

/-- Forward filling (from an empty carry) does not change the first
observation of a series. -/
theorem ffillO_findSome? (l : List (Option ℚ)) :
    (ffillO none l).findSome? id = l.findSome? id := by
  induction l with
  | nil => rfl
  | cons x xs ih =>
    cases x with
    | none => simpa [ffillO, List.findSome?_cons] using ih
    | some v => simp [ffillO, List.findSome?_cons]

/-- Behind an all-missing prefix, forward filling does not change the first
observation of the remaining series. -/
theorem ffillO_drop_findSome? (l : List (Option ℚ)) (i : Nat)
    (hall : ∀ x ∈ l.take (i + 1), x = none) :
    ((ffillO none l).drop (i + 1)).findSome? id =
      (l.drop (i + 1)).findSome? id := by
  induction l generalizing i with
  | nil => rfl
  | cons x xs ih =>
    have hx : x = none := hall x (by rw [List.take_succ_cons]; exact List.mem_cons_self x _)
    subst hx
    cases i with
    | zero =>
      show ((none :: ffillO none xs).drop 1).findSome? id = _
      rw [List.drop_one, List.drop_one]
      simpa using ffillO_findSome? xs
    | succ i =>
      show ((none :: ffillO none xs).drop (i + 2)).findSome? id = _
      rw [List.drop_succ_cons, List.drop_succ_cons]
      exact ih i (fun x hx => hall x (by
        rw [List.take_succ_cons]
        exact List.mem_cons_of_mem _ hx))

/-- The prefix of a series is all-missing exactly when it has no last
observation. -/
theorem lastObs_eq_none_iff (l : List (Option ℚ)) (i : Nat) :
    lastObs l i = none ↔ ∀ x ∈ l.take (i + 1), x = none := by
  unfold lastObs
  rw [List.findSome?_eq_none_iff]
  constructor
  · intro h x hx
    exact h x (List.mem_reverse.2 hx)
  · intro h x hx
    exact h x (List.mem_reverse.1 hx)

/-- The characterizing property of the forward-then-backward fill: each
cell becomes the last observation at or before it when one exists, and the
first observation after it only otherwise (so the fill order is exactly
forward first, backward second). -/
theorem bfill_ffill_getElem? (l : List (Option ℚ)) (i : Nat)
    (hi : i < l.length) :
    (backwardFill (forwardFill l))[i]? =
      some ((lastObs l i).or (nextObs l i)) := by
  have hflen : (forwardFill l).length = l.length := ffillO_length none l
  rw [backwardFill_getElem? _ i (by rw [hflen]; exact hi)]
  congr 1
  have hic : i < (forwardFill l).length := by rw [hflen]; exact hi
  rw [List.drop_eq_getElem_cons hic, List.findSome?_cons]
  have hcell : (forwardFill l)[i] = lastObs l i := by
    have h1 : (forwardFill l)[i]? = some ((lastObs l i).or none) :=
      ffillO_getElem? none l i hi
    rw [Option.or_none, List.getElem?_eq_getElem hic] at h1
    exact Option.some.inj h1
  rw [hcell]
  cases hlo : lastObs l i with
  | some v => rfl
  | none =>
    show ((ffillO none l).drop (i + 1)).findSome? id = _
    rw [ffillO_drop_findSome? l i ((lastObs_eq_none_iff l i).1 hlo)]
    rw [Option.none_or]
    rfl

/-- Membership in the sorted union index. -/
theorem sortedUnion_mem (idxs : List (List Nat)) (t : Nat) :
    t ∈ sortedUnion idxs ↔ ∃ li ∈ idxs, t ∈ li := by
  unfold sortedUnion
  rw [(List.perm_insertionSort _ _).mem_iff, List.mem_dedup, List.mem_flatten]

/-- The union index is sorted. -/
theorem sortedUnion_sorted (idxs : List (List Nat)) :
    (sortedUnion idxs).Sorted (· ≤ ·) :=
  List.sorted_insertionSort _ _

/-- The union index is duplicate-free. -/
theorem sortedUnion_nodup (idxs : List (List Nat)) :
    (sortedUnion idxs).Nodup :=
  ((List.perm_insertionSort _ _).nodup_iff).2 (List.nodup_dedup _)

/-- C8: the merged panel is indexed by the sorted duplicate-free union (not
the intersection) of the columns' monthly indices, and after the
forward-then-backward fill each cell holds the column's last observation at
or before that month when one exists, and its first later observation only
otherwise — the asymmetry produced exactly by filling forward first and
backward second. -/
theorem C8_union_alignment (cols : List MCol) :
    (∀ t, t ∈ (combinePanel cols).1 ↔ ∃ c ∈ cols, t ∈ c.map Prod.fst) ∧
    (combinePanel cols).1.Sorted (· ≤ ·) ∧
    (combinePanel cols).1.Nodup ∧
    (∀ j, j < cols.length → ∀ i, i < (combinePanel cols).1.length →
      ((combinePanel cols).2.getD j [])[i]? =
        some ((lastObs ((combinePanel cols).1.map
            (fun t => outerCell (cols.getD j []) t)) i).or
          (nextObs ((combinePanel cols).1.map
            (fun t => outerCell (cols.getD j []) t)) i))) := by
  refine ⟨?_, sortedUnion_sorted _, sortedUnion_nodup _, ?_⟩
  · intro t
    rw [show (combinePanel cols).1 =
      sortedUnion (cols.map (List.map Prod.fst)) from rfl, sortedUnion_mem]
    constructor
    · rintro ⟨li, hli, ht⟩
      obtain ⟨c, hc, rfl⟩ := List.mem_map.1 hli
      exact ⟨c, hc, ht⟩
    · rintro ⟨c, hc, ht⟩
      exact ⟨c.map Prod.fst, List.mem_map.2 ⟨c, hc, rfl⟩, ht⟩
  · intro j hj i hi
    have hcj : cols.getD j [] = cols[j] := by
      rw [List.getD_eq_getElem?_getD, List.getElem?_eq_getElem hj]
      rfl
    have h2 : (combinePanel cols).2.getD j [] =
        backwardFill (forwardFill ((combinePanel cols).1.map
          (fun t => outerCell (cols.getD j []) t))) := by
      rw [hcj]
      show (cols.map (fun c => backwardFill (forwardFill
          ((sortedUnion (cols.map (List.map Prod.fst))).map
            (fun t => outerCell c t))))).getD j [] = _
      rw [List.getD_eq_getElem?_getD, List.getElem?_map,
        List.getElem?_eq_getElem hj]
      rfl
    rw [h2]
    exact bfill_ffill_getElem? _ i (by rw [List.length_map]; exact hi)

/-- C8 witness: two one-month columns; over the union index `[0, 1]`,
column 1's missing month 1 is forward-filled from month 0, and column 2's
missing month 0 is backward-filled from month 1. -/
theorem C8_union_alignment_witness :
    ((combinePanel [[(0, some 1)], [(1, some 2)]]).2.getD 0 [])[1]? =
      some (some 1) ∧
    ((combinePanel [[(0, some 1)], [(1, some 2)]]).2.getD 1 [])[0]? =
      some (some 2) := by
  have h := (C8_union_alignment [[(0, some 1)], [(1, some 2)]]).2.2.2
  constructor
  · rw [h 0 (by decide) 1 (by decide)]
    rfl
  · rw [h 1 (by decide) 0 (by decide)]
    rfl

/-- Pad-filling the float image of an optional-value series is the float
image of the pad-filled series. -/
theorem ffillM_cellToM (carry : Option ℚ) (cells : List (Option ℚ)) :
    ffillM (carry.map MFloat.fin) (cells.map cellToM) =
      (ffillO carry cells).map cellToM := by
  induction cells generalizing carry with
  | nil => rfl
  | cons x xs ih =>
    cases x with
    | none =>
      show ffillM (carry.map MFloat.fin) (.nan :: xs.map cellToM) = _
      show (carry.map MFloat.fin).getD .nan ::
        ffillM (carry.map MFloat.fin) (xs.map cellToM) = _
      rw [ih carry]
      show _ = (carry :: ffillO carry xs).map cellToM
      rw [List.map_cons]
      congr 1
      cases carry <;> rfl
    | some v =>
      show ffillM (carry.map MFloat.fin) (.fin v :: xs.map cellToM) = _
      show MFloat.fin v :: ffillM (some (.fin v)) (xs.map cellToM) = _
      have h := ih (some v)
      rw [show (some v).map MFloat.fin = some (MFloat.fin v) from rfl] at h
      rw [h]
      rfl

/-- The pad-filled float cell at `i` is the last present value at or
before `i` (`NaN` when the series so far is all-missing). -/
theorem padded_getD (cells : List (Option ℚ)) (i : Nat)
    (hi : i < cells.length) :
    (ffillM none (cells.map cellToM)).getD i .nan =
      cellToM (lastObs cells i) := by
  have h0 : ffillM none (cells.map cellToM) =
      (ffillO none cells).map cellToM := by
    simpa using ffillM_cellToM none cells
  rw [h0, List.getD_eq_getElem?_getD, List.getElem?_map]
  rw [show (ffillO none cells)[i]? = some (lastObs cells i) from by
    rw [ffillO_getElem? none cells i hi, Option.or_none]]
  rfl

/-- Dividing by a missing cell is missing. -/
theorem divM_nan_right (x : MFloat) : divM x .nan = .nan := by
  cases x <;> rfl

/-- On any optional-value monthly series, the YoY cell at a month `i ≥ 12`
is computed from the pad-filled values: the last present value at or
before `i` over the last present value at or before `i - 12`. -/
theorem m2_yoy_vals_pad_getD (cells : List (Option ℚ)) (i : Nat)
    (h12 : 12 ≤ i) (hi : i < cells.length) :
    (m2_yoy_vals (cells.map cellToM)).getD i .nan =
      mulHundredM (subOneM (divM (cellToM (lastObs cells i))
        (cellToM (lastObs cells (i - 12))))) := by
  have hi' : i < (cells.map cellToM).length := by
    rw [List.length_map]; exact hi
  rw [m2_yoy_vals_getD _ _ hi', pct_change12_getD _ _ hi', if_neg (by omega)]
  rw [show ffillM none (cells.map cellToM) =
    ffillM (Option.map MFloat.fin none) (cells.map cellToM) from rfl]
  rw [ffillM_cellToM none cells]
  have hpad : ∀ j, j < cells.length →
      ((ffillO none cells).map cellToM).getD j .nan =
        cellToM (lastObs cells j) := by
    intro j hj
    rw [List.getD_eq_getElem?_getD, List.getElem?_map]
    rw [show (ffillO none cells)[j]? = some (lastObs cells j) from by
      rw [ffillO_getElem? none cells j hj, Option.or_none]]
    rfl
  rw [hpad i hi, hpad (i - 12) (by omega)]

/-- C5 (counterexample): two deviations from "absent in every other case".
First, a zero level 12 months earlier with a nonzero current level gives a
present positive infinity, not an absent cell: 13 monthly levels
`0, 1, ..., 1, 5` give growth `+inf` at month 13.  Second, a missing
current value is forward-filled by `pct_change`'s default
`fill_method="pad"` before dividing, so 12 levels of 100 followed by a
missing month 13 give a present growth of `0.0` at month 13 — present and
zero — where the claim requires an absent cell. -/
theorem C5_counterexample :
    (m2_yoy_vals
        ([0, 1, 1, 1, 1, 1, 1, 1, 1, 1, 1, 1, 5].map MFloat.fin)).getD 12 .nan
      = MFloat.pinf ∧
    (m2_yoy_vals
        ([some 100, some 100, some 100, some 100, some 100, some 100,
          some 100, some 100, some 100, some 100, some 100, some 100,
          none].map cellToM)).getD 12 .nan = .fin 0 := by
  constructor
  · rw [m2_yoy_vals_fin_getD [0, 1, 1, 1, 1, 1, 1, 1, 1, 1, 1, 1, 5] 12
      (by norm_num) (by norm_num)]
    norm_num [List.getD]
    rw [divM]
    norm_num [subOneM, mulHundredM]
  · rw [m2_yoy_vals_pad_getD _ 12 (by norm_num) (by norm_num)]
    rw [show lastObs [some 100, some 100, some 100, some 100, some 100,
      some 100, some 100, some 100, some 100, some 100, some 100, some 100,
      none] 12 = some 100 from rfl]
    rw [show lastObs [some 100, some 100, some 100, some 100, some 100,
      some 100, some 100, some 100, some 100, some 100, some 100, some 100,
      none] (12 - 12) = some 100 from rfl]
    show mulHundredM (subOneM (divM (.fin 100) (.fin 100))) = .fin 0
    rw [divM]
    rw [if_neg (by norm_num : ¬ (100 : ℚ) = 0)]
    show mulHundredM (subOneM (.fin (100 / 100))) = .fin 0
    norm_num [subOneM, mulHundredM]

/-- C5 (amended): growth is computed from the forward-filled (pad) series:
with `padded(m)` the last present level at or before month `m`, growth at
month `m ≥ 13` equals `(padded(m) / padded(m-12) - 1) * 100` whenever
`padded(m-12)` exists and is nonzero — even when `value(m)` itself is
missing, where the original claim required an absent cell; growth is a
signed infinity (not absent) when `padded(m-12) = 0 ≠ padded(m)`; growth is
absent for the first 12 months and when `padded(m-12)` is missing; in
particular, with only 12 monthly observations every growth value is
absent. -/
theorem C5_yoy_growth (cells : List (Option ℚ)) :
    (∀ i, i < 12 → i < cells.length →
      (m2_yoy_vals (cells.map cellToM)).getD i .nan = .nan) ∧
    (∀ i, 12 ≤ i → i < cells.length →
      (m2_yoy_vals (cells.map cellToM)).getD i .nan =
        mulHundredM (subOneM (divM (cellToM (lastObs cells i))
          (cellToM (lastObs cells (i - 12)))))) ∧
    (∀ i a b, 12 ≤ i → i < cells.length → lastObs cells i = some a →
      lastObs cells (i - 12) = some b → ¬ b = 0 →
      (m2_yoy_vals (cells.map cellToM)).getD i .nan =
        .fin ((a / b - 1) * 100)) ∧
    (∀ i a, 12 ≤ i → i < cells.length → lastObs cells i = some a →
      lastObs cells (i - 12) = some 0 → ¬ a = 0 →
      ((m2_yoy_vals (cells.map cellToM)).getD i .nan = .pinf ∨
        (m2_yoy_vals (cells.map cellToM)).getD i .nan = .ninf)) ∧
    (∀ i, 12 ≤ i → i < cells.length → lastObs cells (i - 12) = none →
      (m2_yoy_vals (cells.map cellToM)).getD i .nan = .nan) ∧
    (cells.length ≤ 12 →
      ∀ x ∈ m2_yoy_vals (cells.map cellToM), x = .nan) := by
  refine ⟨?_, ?_, ?_, ?_, ?_, ?_⟩
  · intro i h12 hi
    have hi' : i < (cells.map cellToM).length := by
      rw [List.length_map]; exact hi
    rw [m2_yoy_vals_getD _ _ hi', pct_change12_getD _ _ hi', if_pos h12]
    rfl
  · intro i h12 hi
    exact m2_yoy_vals_pad_getD cells i h12 hi
  · intro i a b h12 hi ha hb hb0
    rw [m2_yoy_vals_pad_getD cells i h12 hi, ha, hb]
    show mulHundredM (subOneM (divM (.fin a) (.fin b))) = _
    rw [divM, if_neg hb0]
    rfl
  · intro i a h12 hi ha hb ha0
    rw [m2_yoy_vals_pad_getD cells i h12 hi, ha, hb]
    show mulHundredM (subOneM (divM (.fin a) (.fin 0))) = .pinf ∨
      mulHundredM (subOneM (divM (.fin a) (.fin 0))) = .ninf
    rw [divM, if_pos rfl, if_neg ha0]
    rcases lt_or_gt_of_ne ha0 with hneg | hpos
    · right
      rw [if_neg (by exact not_lt.2 hneg.le)]
      rfl
    · left
      rw [if_pos hpos]
      rfl
  · intro i h12 hi hb
    rw [m2_yoy_vals_pad_getD cells i h12 hi, hb]
    rw [show cellToM none = .nan from rfl, divM_nan_right]
    rfl
  · intro hlen x hx
    obtain ⟨y, hy, rfl⟩ := List.mem_map.1 hx
    simp only [pct_change12, List.mem_map] at hy
    obtain ⟨i, hi, rfl⟩ := hy
    have hiv : i < (cells.map cellToM).length := by
      simpa using List.mem_range.1 hi
    rw [if_pos (by rw [List.length_map] at hiv; omega)]
    rfl

/-- C5 witness: the spec's own example — 13 present months with level 100
at month 1 and 110 at month 13 give growth 10.0 at month 13. -/
theorem C5_yoy_growth_witness :
    (m2_yoy_vals ([some 100, some 1, some 1, some 1, some 1, some 1, some 1,
      some 1, some 1, some 1, some 1, some 1,
      some 110].map cellToM)).getD 12 .nan = .fin 10 := by
  have h := (C5_yoy_growth [some 100, some 1, some 1, some 1, some 1,
    some 1, some 1, some 1, some 1, some 1, some 1, some 1,
    some 110]).2.2.1 12 110 100 (by norm_num) (by norm_num) rfl rfl
    (by norm_num)
  rw [h]
  norm_num

end MarketWatch
